import Mathlib

/-!
Verification development for the pg_normalize_query module
(src/pg_normalize_query.c): a SQL-statement normalizer that replaces
literal constants with positional placeholders.

The module's own code (constant locator, constant length resolver,
normalized query builder, location recording) is embedded directly from
the C source.  The two external collaborators (raw parser and the
lexical scanner) are modelled from the spec's collaborator contracts:
the parse tree is a closed inductive of the node kinds the walker
distinguishes, and the scanner is a list of tokens, each carrying its
start offset and the scan buffer with the token text null-terminated in
place.
-/

/-- The NUL byte; the flex scan buffer null-terminates the current
token's text in place, and C strlen counts bytes up to the first NUL. -/
def nullChar : Char := Char.ofNat 0

/-- Model of C array indexing scanbuf[i]; positions read by the code are
in bounds, out-of-range reads default to NUL. -/
def charAt (l : List Char) (i : Nat) : Char := l.getD i nullChar

/-- Modelled from the spec: the scanner support routine scanner_isspace
(external to this module) recognizes space, tab, newline, carriage
return and form feed. -/
def scanner_isspace (c : Char) : Bool :=
  c == ' ' || c == Char.ofNat 9 || c == Char.ofNat 10 ||
  c == Char.ofNat 13 || c == Char.ofNat 12

/-- Model of C strlen applied to a suffix of the scan buffer. -/
def pgnq_strlen (l : List Char) : Nat :=
  (l.takeWhile (fun c => c != nullChar)).length

/-- Struct pgnqLocationLen: start offset of a constant in the query text
and its length in bytes, or -1 to ignore. -/
structure pgnqLocationLen where
  location : Int
  length : Int
deriving DecidableEq

/-- Struct pgnqConstLocations: the working state for the constant tree
walker.  The clocations array is modelled as a list (its count is the
list length); clocations_buf_size is the allocated capacity. -/
structure pgnqConstLocations where
  clocations : List pgnqLocationLen
  clocations_buf_size : Int
  highest_extern_param_id : Int
deriving DecidableEq

/-- Modelled from the spec: one token yielded by the external lexical
scanner.  lloc is the token's start offset (yylloc); scanbuf is the
scanner's working copy of the query text at the moment this token is
current, with a NUL placed right after the token's text. -/
structure pgnqToken where
  lloc : Nat
  scanbuf : List Char
deriving DecidableEq

/-- The workspace set up by pg_normalize_query before walking the tree
(clocations_buf_size = 32, count = 0, highest_extern_param_id = 0). -/
def pgnq_init : pgnqConstLocations :=
  { clocations := [], clocations_buf_size := 32, highest_extern_param_id := 0 }

/-- pgnq_record_const_location: drop negative (unknown) locations;
otherwise double the capacity if the array is full, then append a record
with the given location and length initialized to -1. -/
def pgnq_record_const_location (jstate : pgnqConstLocations) (location : Int) :
    pgnqConstLocations :=
  if 0 ≤ location then
    { clocations := jstate.clocations ++ [⟨location, -1⟩],
      clocations_buf_size :=
        if jstate.clocations_buf_size ≤ (jstate.clocations.length : Int) then
          jstate.clocations_buf_size * 2
        else jstate.clocations_buf_size,
      highest_extern_param_id := jstate.highest_extern_param_id }
  else jstate

/-- Modelled from the spec: the parse tree produced by the external raw
parser, restricted to the node kinds pgnq_const_record_walker
distinguishes.  Each pass-through wrapper kind carries its designated
inner field (possibly null) plus its remaining child fields; every other
node kind is a generic node with a list of child fields. -/
inductive Node where
  | aConst (location : Int)
  | paramRef (number : Int)
  | defElem (arg : Option Node) (otherFields : List Node)
  | rawStmt (stmt : Option Node) (otherFields : List Node)
  | variableSetStmt (args : Option Node) (otherFields : List Node)
  | copyStmt (query : Option Node) (otherFields : List Node)
  | explainStmt (query : Option Node) (otherFields : List Node)
  | alterRoleStmt (options : Option Node) (otherFields : List Node)
  | declareCursorStmt (query : Option Node) (otherFields : List Node)
  | generic (fields : List Node)

mutual

/-- pgnq_const_record_walker: record A_Const locations, track the
highest ParamRef number, recurse into the designated field of a wrapper
node when it is non-null, and otherwise fall back to generic structural
recursion over all child fields (raw_expression_tree_walker, modelled
from the spec's generic-recursion contract). -/
def pgnq_const_record_walker : Node → pgnqConstLocations → pgnqConstLocations
  | .aConst location, s => pgnq_record_const_location s location
  | .paramRef number, s =>
      if s.highest_extern_param_id < number then
        { s with highest_extern_param_id := number }
      else s
  | .defElem (some arg) _, s => pgnq_const_record_walker arg s
  | .defElem none others, s => pgnq_walk_fields others s
  | .rawStmt (some stmt) _, s => pgnq_const_record_walker stmt s
  | .rawStmt none others, s => pgnq_walk_fields others s
  | .variableSetStmt (some args) _, s => pgnq_const_record_walker args s
  | .variableSetStmt none others, s => pgnq_walk_fields others s
  | .copyStmt (some q) _, s => pgnq_const_record_walker q s
  | .copyStmt none others, s => pgnq_walk_fields others s
  | .explainStmt (some q) _, s => pgnq_const_record_walker q s
  | .explainStmt none others, s => pgnq_walk_fields others s
  | .alterRoleStmt (some opts) _, s => pgnq_const_record_walker opts s
  | .alterRoleStmt none others, s => pgnq_walk_fields others s
  | .declareCursorStmt (some q) _, s => pgnq_const_record_walker q s
  | .declareCursorStmt none others, s => pgnq_walk_fields others s
  | .generic fields, s => pgnq_walk_fields fields s

/-- Modelled from the spec: generic structural recursion over a node's
child fields in left-to-right order (raw_expression_tree_walker's
iteration over sub-nodes). -/
def pgnq_walk_fields : List Node → pgnqConstLocations → pgnqConstLocations
  | [], s => s
  | n :: ns, s => pgnq_walk_fields ns (pgnq_const_record_walker n s)

end

/-- pgnq_comp_location orders records by location; the qsort call in
pgnq_fill_in_constant_lengths is modelled as an insertion sort with that
comparator (all records of a pipeline-produced state have length -1 at
sort time, so tie order is immaterial). -/
def pgnq_insert_by_location (r : pgnqLocationLen) :
    List pgnqLocationLen → List pgnqLocationLen
  | [] => [r]
  | x :: xs =>
    if r.location ≤ x.location then r :: x :: xs
    else x :: pgnq_insert_by_location r xs

/-- Sort of the clocations array by location (models the qsort call). -/
def pgnq_sort_clocations : List pgnqLocationLen → List pgnqLocationLen
  | [] => []
  | x :: xs => pgnq_insert_by_location x (pgnq_sort_clocations xs)

/-- Inner token loop of pgnq_fill_in_constant_lengths: pull tokens from
the scanner until one starts at or past the target location; tokens
before that point are discarded.  Returns none when the scanner reaches
end of input first. -/
def pgnq_scanTo : List pgnqToken → Int → Option (pgnqToken × List pgnqToken)
  | [], _ => none
  | t :: ts, loc => if loc ≤ (t.lloc : Int) then some (t, ts) else pgnq_scanTo ts loc

/-- Trailing-whitespace trim loop for Unicode-escaped string literals:
j runs down from length - 1 while scanbuf[loc + j] is whitespace, and
the new length is j + 1.  The argument is j + 1, so 0 encodes j = -1. -/
def pgnq_trim (scanbuf : List Char) (loc : Nat) : Nat → Nat
  | 0 => 0
  | j + 1 =>
    if scanner_isspace (charAt scanbuf (loc + j)) then pgnq_trim scanbuf loc j
    else j + 1

/-- Length computation at a matched token: strlen from the constant's
location to the NUL flex placed after the current token, with the
trailing-whitespace trim applied when the text at the location is a
Unicode-escaped quoted literal (u& or U& followed by a quote, length
greater than 4). -/
def pgnq_measure (scanbuf : List Char) (loc : Nat) : Nat :=
  if 4 < pgnq_strlen (scanbuf.drop loc) &&
     (charAt scanbuf loc == 'u' || charAt scanbuf loc == 'U') &&
     charAt scanbuf (loc + 1) == '&' &&
     charAt scanbuf (loc + 2) == Char.ofNat 39 then
    pgnq_trim scanbuf loc (pgnq_strlen (scanbuf.drop loc))
  else pgnq_strlen (scanbuf.drop loc)

/-- Outer record loop of pgnq_fill_in_constant_lengths over the sorted
records: skip duplicates (location at or before the last resolved
location) without consuming scanner state; on scanner end-of-input stop
resolving entirely, leaving the remaining records unchanged; at a
matched token whose query byte at the record's location is a minus sign,
pull one more token (the attached numeric literal) before measuring. -/
def pgnq_resolve :
    List pgnqLocationLen → List Char → List pgnqToken → Int → List pgnqLocationLen
  | [], _, _, _ => []
  | r :: rest, query, toks, lastLoc =>
    if r.location ≤ lastLoc then
      r :: pgnq_resolve rest query toks lastLoc
    else
      match pgnq_scanTo toks r.location with
      | none => r :: rest
      | some (t, ts) =>
        if charAt query r.location.toNat == '-' then
          match ts with
          | [] => r :: rest
          | t2 :: ts2 =>
            { r with length := (pgnq_measure t2.scanbuf r.location.toNat : Int) } ::
              pgnq_resolve rest query ts2 r.location
        else
          { r with length := (pgnq_measure t.scanbuf r.location.toNat : Int) } ::
            pgnq_resolve rest query ts r.location

/-- pgnq_fill_in_constant_lengths: sort the records by location (only
when there is more than one) and resolve each constant's length against
the token stream, starting with last_loc = -1. -/
def pgnq_fill_in_constant_lengths (jstate : pgnqConstLocations)
    (query : List Char) (toks : List pgnqToken) : pgnqConstLocations :=
  { jstate with
    clocations :=
      pgnq_resolve
        (if 1 < jstate.clocations.length then pgnq_sort_clocations jstate.clocations
         else jstate.clocations)
        query toks (-1) }

/-- Decimal digit string of a natural number, with explicit fuel so that
it reduces in the kernel; fuel n + 1 always suffices. -/
def natDecimalAux : Nat → Nat → List Char
  | 0, _ => []
  | fuel + 1, n =>
    if n < 10 then [Char.ofNat (48 + n)]
    else natDecimalAux fuel (n / 10) ++ [Char.ofNat (48 + n % 10)]

/-- Decimal digit string of a natural number. -/
def natDecimal (n : Nat) : List Char := natDecimalAux (n + 1) n

/-- Model of sprintf's %d conversion for a (signed) int. -/
def intDecimal (n : Int) : List Char :=
  if n < 0 then '-' :: natDecimal (-n).toNat else natDecimal n.toNat

/-- Per-record loop plus final tail copy of pgnq_build_normalized_query.
Records with negative length are skipped (the loop index i still
advances).  The two Assert calls (len_to_wrt at least 0; final output
length within the allocated buffer) are modelled as none on failure.
The placeholder number i + 1 + hpid is a 32-bit signed int in the C
source; it is modelled in unbounded Int, so the theorems below restrict
themselves to states with record count + hpid at most INT_MAX
(2147483647), where the two arithmetics agree and no overflow can
occur. -/
def pgnq_loop (query : List Char) (queryLen queryLoc hpid buflen : Int) :
    List pgnqLocationLen → Nat → Int → Int → Int → List Char → Option (List Char)
  | [], _i, querLoc, _lastOff, _lastTokLen, acc =>
    if queryLen - querLoc < 0 then none
    else
      if ((acc ++ (query.drop querLoc.toNat).take (queryLen - querLoc).toNat).length : Int)
          ≤ buflen then
        some (acc ++ (query.drop querLoc.toNat).take (queryLen - querLoc).toNat)
      else none
  | r :: rest, i, querLoc, lastOff, lastTokLen, acc =>
    if r.length < 0 then
      pgnq_loop query queryLen queryLoc hpid buflen rest (i + 1)
        querLoc lastOff lastTokLen acc
    else
      if r.location - queryLoc - lastOff - lastTokLen < 0 then none
      else
        pgnq_loop query queryLen queryLoc hpid buflen rest (i + 1)
          (r.location - queryLoc + r.length) (r.location - queryLoc) r.length
          (acc ++ (query.drop querLoc.toNat).take (r.location - queryLoc - lastOff - lastTokLen).toNat
               ++ ('$' :: intDecimal ((i : Int) + 1 + hpid)))

/-- pgnq_build_normalized_query: fill in the constant lengths, allocate
an output buffer of query_len + count * 10 bytes (plus a terminator) and
run the substitution loop.  The result is the normalized text; its
length is the updated query length the C code stores through
query_len_p. -/
def pgnq_build_normalized_query (jstate : pgnqConstLocations) (query : List Char)
    (queryLoc queryLen : Int) (toks : List pgnqToken) : Option (List Char) :=
  let js := pgnq_fill_in_constant_lengths jstate query toks
  pgnq_loop query queryLen queryLoc js.highest_extern_param_id
    (queryLen + (js.clocations.length : Int) * 10) js.clocations 0 0 0 0 []

/-- pg_normalize_query entry point: set up the workspace, walk the
parsed tree (supplied by the external parser, modelled as a Node), and
build the normalized query over the whole text. -/
def pg_normalize_query (tree : Node) (sql : List Char) (toks : List pgnqToken) :
    Option (List Char) :=
  pgnq_build_normalized_query (pgnq_const_record_walker tree pgnq_init)
    sql 0 (sql.length : Int) toks

/-- Specification-side builder, following the spec's words as amended:
the placeholder for each substituted constant is a dollar sign followed
by (the record's index in the sorted records array + 1 +
highest_param_id), the index advancing over skipped records too. -/
def pgnq_spec_build_by_index (query : List Char) (queryLen queryLoc hpid : Int) :
    List pgnqLocationLen → Nat → Int → List Char
  | [], _, cur => (query.drop cur.toNat).take (queryLen - cur).toNat
  | r :: rest, i, cur =>
    if r.length < 0 then
      pgnq_spec_build_by_index query queryLen queryLoc hpid rest (i + 1) cur
    else
      (query.drop cur.toNat).take (r.location - queryLoc - cur).toNat
        ++ ('$' :: intDecimal ((i : Int) + 1 + hpid))
        ++ pgnq_spec_build_by_index query queryLen queryLoc hpid rest (i + 1)
             (r.location - queryLoc + r.length)

/-- Specification-side builder, following the claim's words as stated:
the placeholder for each substituted constant is a dollar sign followed
by (index among emitted records + 1 + highest_param_id), numbered
contiguously with no gaps regardless of skipped records. -/
def pgnq_spec_build_contiguous (query : List Char) (queryLen queryLoc hpid : Int) :
    List pgnqLocationLen → Nat → Int → List Char
  | [], _, cur => (query.drop cur.toNat).take (queryLen - cur).toNat
  | r :: rest, k, cur =>
    if r.length < 0 then
      pgnq_spec_build_contiguous query queryLen queryLoc hpid rest k cur
    else
      (query.drop cur.toNat).take (r.location - queryLoc - cur).toNat
        ++ ('$' :: intDecimal ((k : Int) + 1 + hpid))
        ++ pgnq_spec_build_contiguous query queryLen queryLoc hpid rest (k + 1)
             (r.location - queryLoc + r.length)

/-- Well-formedness of a length-resolved record list relative to a
cursor position: every record to be emitted lies at or after the
cursor, has a strictly positive length, and the records fit within the
query text.  This is the invariant the resolver establishes on states
whose offsets originated from parsing the same text. -/
def pgnq_recs_wf (queryLoc queryLen : Int) : Int → List pgnqLocationLen → Bool
  | cur, [] => decide (cur ≤ queryLen)
  | cur, r :: rest =>
    if r.length < 0 then pgnq_recs_wf queryLoc queryLen cur rest
    else
      decide (cur ≤ r.location - queryLoc) && decide (1 ≤ r.length) &&
        pgnq_recs_wf queryLoc queryLen (r.location - queryLoc + r.length) rest

/-- Modelled from the spec: one token of the scanner contract is
well-formed when its start offset lies inside the scan buffer and no
byte up to and including the start offset is NUL (the buffer holds the
query text up to the current token, and the token's text is nonempty). -/
def pgnq_token_ok (t : pgnqToken) : Bool :=
  decide (t.lloc < t.scanbuf.length) &&
  (t.scanbuf.take (t.lloc + 1)).all (fun c => c != nullChar)

/-- Modelled from the spec: the scanner yields well-formed tokens with
nondecreasing start offsets. -/
def pgnq_tokens_wf : List pgnqToken → Bool
  | [] => true
  | [t] => pgnq_token_ok t
  | t1 :: t2 :: ts =>
    pgnq_token_ok t1 && decide (t1.lloc ≤ t2.lloc) && pgnq_tokens_wf (t2 :: ts)

/-- Remove the maximal run of trailing whitespace from a byte list. -/
def dropTrailingSpaces (l : List Char) : List Char :=
  (l.reverse.dropWhile (fun c => scanner_isspace c)).reverse

/-! Specification-side functions mirroring what the locator pass is
supposed to compute: the maximum parameter number encountered along the
walker's traversal, and the constant locations encountered, in order. -/

mutual

/-- Maximum numbered-parameter placeholder encountered by the walker's
traversal of a tree (0 when there is none). -/
def treeParamMax : Node → Int
  | .aConst _ => 0
  | .paramRef number => max 0 number
  | .defElem (some arg) _ => treeParamMax arg
  | .defElem none others => listParamMax others
  | .rawStmt (some stmt) _ => treeParamMax stmt
  | .rawStmt none others => listParamMax others
  | .variableSetStmt (some args) _ => treeParamMax args
  | .variableSetStmt none others => listParamMax others
  | .copyStmt (some q) _ => treeParamMax q
  | .copyStmt none others => listParamMax others
  | .explainStmt (some q) _ => treeParamMax q
  | .explainStmt none others => listParamMax others
  | .alterRoleStmt (some opts) _ => treeParamMax opts
  | .alterRoleStmt none others => listParamMax others
  | .declareCursorStmt (some q) _ => treeParamMax q
  | .declareCursorStmt none others => listParamMax others
  | .generic fields => listParamMax fields

/-- Maximum numbered-parameter placeholder encountered across a list of
child fields. -/
def listParamMax : List Node → Int
  | [] => 0
  | n :: ns => max (treeParamMax n) (listParamMax ns)

end

mutual

/-- Constant-node locations encountered by the walker's traversal of a
tree, in traversal order, before the non-negativity filter. -/
def treeConstLocs : Node → List Int
  | .aConst location => [location]
  | .paramRef _ => []
  | .defElem (some arg) _ => treeConstLocs arg
  | .defElem none others => listConstLocs others
  | .rawStmt (some stmt) _ => treeConstLocs stmt
  | .rawStmt none others => listConstLocs others
  | .variableSetStmt (some args) _ => treeConstLocs args
  | .variableSetStmt none others => listConstLocs others
  | .copyStmt (some q) _ => treeConstLocs q
  | .copyStmt none others => listConstLocs others
  | .explainStmt (some q) _ => treeConstLocs q
  | .explainStmt none others => listConstLocs others
  | .alterRoleStmt (some opts) _ => treeConstLocs opts
  | .alterRoleStmt none others => listConstLocs others
  | .declareCursorStmt (some q) _ => treeConstLocs q
  | .declareCursorStmt none others => listConstLocs others
  | .generic fields => listConstLocs fields

/-- Constant-node locations encountered across a list of child fields. -/
def listConstLocs : List Node → List Int
  | [] => []
  | n :: ns => treeConstLocs n ++ listConstLocs ns

end

example : pgnq_sort_clocations [⟨5, -1⟩, ⟨2, -1⟩] = [⟨2, -1⟩, ⟨5, -1⟩] := by decide
example : natDecimal 1234567890 = "1234567890".toList := by decide
example : intDecimal 4 = "4".toList := by decide

example : pgnq_build_normalized_query ⟨[⟨4, -1⟩], 32, 0⟩ ("a = 1".toList) 0 5
    [⟨0, 'a' :: nullChar :: "= 1".toList⟩,
     ⟨2, "a =".toList ++ nullChar :: "1".toList⟩,
     ⟨4, "a = 1".toList ++ [nullChar]⟩]
    = some ("a = $1".toList) := by decide

example : pgnq_build_normalized_query ⟨[⟨4, -1⟩], 32, 0⟩ ("a = -1".toList) 0 6
    [⟨0, 'a' :: nullChar :: "= -1".toList⟩,
     ⟨2, "a =".toList ++ nullChar :: "-1".toList⟩,
     ⟨4, "a = -".toList ++ nullChar :: "1".toList⟩,
     ⟨5, "a = -1".toList ++ [nullChar]⟩]
    = some ("a = $1".toList) := by decide

example : pgnq_build_normalized_query ⟨[⟨4, -1⟩, ⟨4, -1⟩], 32, 0⟩ ("a = 1".toList) 0 5
    [⟨4, "a = 1".toList ++ [nullChar]⟩]
    = some ("a = $1".toList) := by decide

example : pgnq_build_normalized_query ⟨[⟨4, -1⟩, ⟨8, -1⟩], 32, 0⟩ ("a = 1 , 2".toList) 0 9
    [⟨4, "a = 1".toList ++ nullChar :: " , 2".toList⟩]
    = some ("a = $1 , 2".toList) := by decide

example : pgnq_build_normalized_query ⟨[⟨4, -1⟩], 32, 3⟩ ("a = 1".toList) 0 5
    [⟨4, "a = 1".toList ++ [nullChar]⟩]
    = some ("a = $4".toList) := by decide

example : pgnq_build_normalized_query ⟨[⟨5, -1⟩, ⟨5, -1⟩, ⟨10, -1⟩], 32, 0⟩
    ("abcde1fghi2jk".toList) 0 13
    [⟨5, "abcde1".toList ++ nullChar :: "hi2jk".toList⟩,
     ⟨10, "abcde1fghi2".toList ++ nullChar :: "k".toList⟩]
    = some ("abcde$1fghi$3jk".toList) := by decide

example : pgnq_spec_build_contiguous ("abcde1fghi2jk".toList) 13 0 0
    [⟨5, 1⟩, ⟨5, -1⟩, ⟨10, 1⟩] 0 0 = ("abcde$1fghi$2jk".toList) := by decide

/-! Helper lemmas about the scan buffer, the measurement and the trim loop. -/

theorem charAt_drop (l : List Char) (i j : Nat) :
    charAt (l.drop i) j = charAt l (i + j) := by
  simp [charAt, List.getD_eq_getElem?_getD, List.getElem?_drop]

theorem pgnq_strlen_le (l : List Char) : pgnq_strlen l ≤ l.length := by
  simpa [pgnq_strlen] using (List.takeWhile_sublist (l := l)
    (fun c => c != nullChar)).length_le

theorem pgnq_strlen_pos {l : List Char} (h : charAt l 0 ≠ nullChar) :
    0 < pgnq_strlen l := by
  cases l with
  | nil => simp [charAt, List.getD] at h
  | cons c t =>
    have hc : (c != nullChar) = true := by
      simp only [charAt, List.getD] at h
      simpa using h
    simp [pgnq_strlen, List.takeWhile_cons, hc]

theorem pgnq_trim_pos {scanbuf : List Char} {loc : Nat}
    (h : scanner_isspace (charAt scanbuf loc) = false) :
    ∀ k, 0 < k → 0 < pgnq_trim scanbuf loc k := by
  intro k
  induction k with
  | zero => omega
  | succ j ih =>
    intro _
    by_cases hj : scanner_isspace (charAt scanbuf (loc + j)) = true
    · rcases Nat.eq_zero_or_pos j with rfl | hjpos
      · rw [Nat.add_zero, h] at hj
        cases hj
      · simpa [pgnq_trim, hj] using ih hjpos
    · simp [pgnq_trim, hj]

theorem pgnq_measure_pos {scanbuf : List Char} {loc : Nat}
    (h : charAt scanbuf loc ≠ nullChar) : 0 < pgnq_measure scanbuf loc := by
  have hlen : 0 < pgnq_strlen (scanbuf.drop loc) := by
    apply pgnq_strlen_pos
    rw [charAt_drop, Nat.add_zero]
    exact h
  rw [pgnq_measure]
  split
  · next hg =>
    have hu : (charAt scanbuf loc == 'u' || charAt scanbuf loc == 'U') = true := by
      simp only [Bool.and_eq_true] at hg
      exact hg.1.1.2
    have hu' : charAt scanbuf loc = 'u' ∨ charAt scanbuf loc = 'U' := by
      simpa using hu
    have hsp : scanner_isspace (charAt scanbuf loc) = false := by
      rcases hu' with h1 | h1 <;> rw [h1] <;> decide
    exact pgnq_trim_pos hsp _ hlen
  · exact hlen

theorem pgnq_trim_eq (scanbuf : List Char) (loc : Nat) :
    ∀ k, k ≤ (scanbuf.drop loc).length →
    pgnq_trim scanbuf loc k =
      (((scanbuf.drop loc).take k).reverse.dropWhile (fun c => scanner_isspace c)).length := by
  intro k
  induction k with
  | zero => intro _; simp [pgnq_trim]
  | succ j ih =>
    intro hk
    have hj : j < (scanbuf.drop loc).length := Nat.lt_of_succ_le hk
    have hgetj : charAt scanbuf (loc + j) = (scanbuf.drop loc)[j] := by
      rw [charAt, List.getD_eq_getElem?_getD, ← List.getElem?_drop,
        List.getElem?_eq_getElem hj]
      rfl
    have htake : ((scanbuf.drop loc).take (j + 1)).reverse
        = (scanbuf.drop loc)[j] :: ((scanbuf.drop loc).take j).reverse := by
      rw [List.take_succ, List.getElem?_eq_getElem hj]
      simp [List.reverse_append]
    have hstep : pgnq_trim scanbuf loc (j + 1)
        = if scanner_isspace (charAt scanbuf (loc + j)) then pgnq_trim scanbuf loc j
          else j + 1 := rfl
    rw [hstep, htake, List.dropWhile_cons, hgetj]
    by_cases hsp : scanner_isspace ((scanbuf.drop loc)[j]) = true
    · rw [if_pos hsp, if_pos hsp]
      exact ih (Nat.le_of_lt hj)
    · rw [if_neg hsp, if_neg hsp]
      have hj' : j ≤ scanbuf.length - loc := by
        simpa [List.length_drop] using Nat.le_of_lt hj
      simp [List.length_take, List.length_drop, Nat.min_eq_left hj']

theorem pgnq_token_ok_charAt {t : pgnqToken} (h : pgnq_token_ok t = true)
    {k : Nat} (hk : k ≤ t.lloc) : charAt t.scanbuf k ≠ nullChar := by
  rw [pgnq_token_ok, Bool.and_eq_true, decide_eq_true_eq] at h
  obtain ⟨hlt, hall⟩ := h
  have hkl : k < t.scanbuf.length := lt_of_le_of_lt hk hlt
  have hk1 : k < (t.scanbuf.take (t.lloc + 1)).length := by
    rw [List.length_take]
    exact lt_min (Nat.lt_succ_of_le hk) hkl
  have hmem := List.all_eq_true.mp hall _ (List.getElem_mem hk1)
  rw [List.getElem_take] at hmem
  have hne : t.scanbuf[k] ≠ nullChar := by simpa using hmem
  rw [charAt, List.getD_eq_getElem?_getD, List.getElem?_eq_getElem hkl]
  simpa using hne

/-! Helper lemmas about the token-stream well-formedness predicate. -/

theorem pgnq_tokens_wf_tail {t : pgnqToken} {ts : List pgnqToken}
    (h : pgnq_tokens_wf (t :: ts) = true) : pgnq_tokens_wf ts = true := by
  cases ts with
  | nil => rfl
  | cons t2 ts2 =>
    rw [pgnq_tokens_wf, Bool.and_eq_true] at h
    exact h.2

theorem pgnq_tokens_wf_head {t : pgnqToken} {ts : List pgnqToken}
    (h : pgnq_tokens_wf (t :: ts) = true) : pgnq_token_ok t = true := by
  cases ts with
  | nil => exact h
  | cons t2 ts2 =>
    rw [pgnq_tokens_wf, Bool.and_eq_true, Bool.and_eq_true] at h
    exact h.1.1

theorem pgnq_tokens_wf_pair {t1 t2 : pgnqToken} {ts : List pgnqToken}
    (h : pgnq_tokens_wf (t1 :: t2 :: ts) = true) : t1.lloc ≤ t2.lloc := by
  rw [pgnq_tokens_wf, Bool.and_eq_true, Bool.and_eq_true] at h
  exact of_decide_eq_true h.1.2

theorem pgnq_tokens_wf_append {a b : List pgnqToken}
    (h : pgnq_tokens_wf (a ++ b) = true) : pgnq_tokens_wf b = true := by
  induction a with
  | nil => exact h
  | cons t a ih => exact ih (pgnq_tokens_wf_tail h)

/-! Helper lemmas about the token-search loop. -/

theorem pgnq_scanTo_eq {toks : List pgnqToken} {loc : Int} {t : pgnqToken}
    {ts : List pgnqToken} (h : pgnq_scanTo toks loc = some (t, ts)) :
    (∃ pre, toks = pre ++ t :: ts) ∧ loc ≤ (t.lloc : Int) := by
  induction toks with
  | nil => simp [pgnq_scanTo] at h
  | cons x xs ih =>
    rw [pgnq_scanTo] at h
    by_cases hx : loc ≤ (x.lloc : Int)
    · rw [if_pos hx] at h
      simp only [Option.some.injEq, Prod.mk.injEq] at h
      obtain ⟨rfl, rfl⟩ := h
      exact ⟨⟨[], rfl⟩, hx⟩
    · rw [if_neg hx] at h
      obtain ⟨⟨pre, hpre⟩, hle⟩ := ih h
      exact ⟨⟨x :: pre, by rw [hpre]; rfl⟩, hle⟩

/-! Helper lemmas about the sort of the record array. -/

theorem pgnq_mem_insert_by_location {x r : pgnqLocationLen}
    {l : List pgnqLocationLen} (h : x ∈ pgnq_insert_by_location r l) :
    x = r ∨ x ∈ l := by
  induction l with
  | nil =>
    rw [pgnq_insert_by_location] at h
    simp at h
    exact Or.inl h
  | cons y ys ih =>
    rw [pgnq_insert_by_location] at h
    by_cases hc : r.location ≤ y.location
    · rw [if_pos hc] at h
      simpa using h
    · rw [if_neg hc] at h
      rcases List.mem_cons.mp h with rfl | h2
      · exact Or.inr (List.mem_cons_self _ _)
      · rcases ih h2 with h3 | h3
        · exact Or.inl h3
        · exact Or.inr (List.mem_cons_of_mem _ h3)

theorem pgnq_mem_sort_clocations {x : pgnqLocationLen}
    {l : List pgnqLocationLen} (h : x ∈ pgnq_sort_clocations l) : x ∈ l := by
  induction l with
  | nil =>
    rw [pgnq_sort_clocations] at h
    exact h
  | cons y ys ih =>
    rw [pgnq_sort_clocations] at h
    rcases pgnq_mem_insert_by_location h with rfl | h2
    · exact List.mem_cons_self _ _
    · exact List.mem_cons_of_mem _ (ih h2)

theorem pgnq_length_insert_by_location (r : pgnqLocationLen)
    (l : List pgnqLocationLen) :
    (pgnq_insert_by_location r l).length = l.length + 1 := by
  induction l with
  | nil => rfl
  | cons y ys ih =>
    rw [pgnq_insert_by_location]
    split
    · rfl
    · simp [ih]

theorem pgnq_length_sort_clocations (l : List pgnqLocationLen) :
    (pgnq_sort_clocations l).length = l.length := by
  induction l with
  | nil => rfl
  | cons y ys ih =>
    rw [pgnq_sort_clocations, pgnq_length_insert_by_location, ih]
    rfl

/-! Step equations for the resolver's outer record loop. -/

theorem pgnq_resolve_dup_step {r : pgnqLocationLen} {rest : List pgnqLocationLen}
    {query : List Char} {toks : List pgnqToken} {lastLoc : Int}
    (h : r.location ≤ lastLoc) :
    pgnq_resolve (r :: rest) query toks lastLoc
      = r :: pgnq_resolve rest query toks lastLoc := by
  rw [pgnq_resolve, if_pos h]

theorem pgnq_resolve_eof_step {r : pgnqLocationLen} {rest : List pgnqLocationLen}
    {query : List Char} {toks : List pgnqToken} {lastLoc : Int}
    (h1 : lastLoc < r.location) (h2 : pgnq_scanTo toks r.location = none) :
    pgnq_resolve (r :: rest) query toks lastLoc = r :: rest := by
  rw [pgnq_resolve, if_neg (not_le.mpr h1), h2]

theorem pgnq_resolve_minus_step {r : pgnqLocationLen} {rest : List pgnqLocationLen}
    {query : List Char} {toks : List pgnqToken} {lastLoc : Int}
    {t t2 : pgnqToken} {ts2 : List pgnqToken}
    (h1 : lastLoc < r.location)
    (h2 : pgnq_scanTo toks r.location = some (t, t2 :: ts2))
    (h3 : charAt query r.location.toNat = '-') :
    pgnq_resolve (r :: rest) query toks lastLoc
      = { r with length := (pgnq_measure t2.scanbuf r.location.toNat : Int) } ::
          pgnq_resolve rest query ts2 r.location := by
  rw [pgnq_resolve, if_neg (not_le.mpr h1), h2]
  simp [h3]

theorem pgnq_resolve_minus_eof_step {r : pgnqLocationLen}
    {rest : List pgnqLocationLen} {query : List Char} {toks : List pgnqToken}
    {lastLoc : Int} {t : pgnqToken}
    (h1 : lastLoc < r.location)
    (h2 : pgnq_scanTo toks r.location = some (t, []))
    (h3 : charAt query r.location.toNat = '-') :
    pgnq_resolve (r :: rest) query toks lastLoc = r :: rest := by
  rw [pgnq_resolve, if_neg (not_le.mpr h1), h2]
  simp [h3]

theorem pgnq_resolve_hit_step {r : pgnqLocationLen} {rest : List pgnqLocationLen}
    {query : List Char} {toks : List pgnqToken} {lastLoc : Int}
    {t : pgnqToken} {ts : List pgnqToken}
    (h1 : lastLoc < r.location)
    (h2 : pgnq_scanTo toks r.location = some (t, ts))
    (h3 : charAt query r.location.toNat ≠ '-') :
    pgnq_resolve (r :: rest) query toks lastLoc
      = { r with length := (pgnq_measure t.scanbuf r.location.toNat : Int) } ::
          pgnq_resolve rest query ts r.location := by
  rw [pgnq_resolve, if_neg (not_le.mpr h1), h2]
  simp [h3]

theorem pgnq_resolve_length (recs : List pgnqLocationLen) (query : List Char) :
    ∀ (toks : List pgnqToken) (lastLoc : Int),
    (pgnq_resolve recs query toks lastLoc).length = recs.length := by
  induction recs with
  | nil => intro toks lastLoc; rfl
  | cons r rest ih =>
    intro toks lastLoc
    by_cases hdup : r.location ≤ lastLoc
    · rw [pgnq_resolve_dup_step hdup]
      simp [ih]
    · cases hscan : pgnq_scanTo toks r.location with
      | none => rw [pgnq_resolve_eof_step (not_le.mp hdup) hscan]
      | some pr =>
        obtain ⟨t, ts⟩ := pr
        by_cases hm : charAt query r.location.toNat = '-'
        · cases ts with
          | nil => rw [pgnq_resolve_minus_eof_step (not_le.mp hdup) hscan hm]
          | cons t2 ts2 =>
            rw [pgnq_resolve_minus_step (not_le.mp hdup) hscan hm]
            simp [ih]
        · rw [pgnq_resolve_hit_step (not_le.mp hdup) hscan hm]
          simp [ih]

theorem pgnq_fill_length (jstate : pgnqConstLocations) (query : List Char)
    (toks : List pgnqToken) :
    (pgnq_fill_in_constant_lengths jstate query toks).clocations.length
      = jstate.clocations.length := by
  rw [pgnq_fill_in_constant_lengths]
  show (pgnq_resolve _ query toks (-1)).length = _
  rw [pgnq_resolve_length]
  split
  · exact pgnq_length_sort_clocations _
  · rfl

theorem pgnq_fill_highest (jstate : pgnqConstLocations) (query : List Char)
    (toks : List pgnqToken) :
    (pgnq_fill_in_constant_lengths jstate query toks).highest_extern_param_id
      = jstate.highest_extern_param_id := rfl

/-! Core lemma for the resolver's length dichotomy: with a well-formed
token stream, every record the resolver touches either keeps the length
it came in with (-1 for locator-produced states) or receives a strictly
positive measured length. -/

theorem pgnq_resolve_lengths (recs : List pgnqLocationLen) (query : List Char) :
    ∀ (toks : List pgnqToken) (lastLoc : Int),
    pgnq_tokens_wf toks = true →
    (∀ r ∈ recs, r.length = -1) →
    ∀ r' ∈ pgnq_resolve recs query toks lastLoc,
      0 < r'.length ∨ r'.length = -1 := by
  induction recs with
  | nil =>
    intro toks lastLoc _ _ r' hr'
    simp [pgnq_resolve] at hr'
  | cons r rest ih =>
    intro toks lastLoc hwf hin r' hr'
    by_cases hdup : r.location ≤ lastLoc
    · rw [pgnq_resolve_dup_step hdup] at hr'
      rcases List.mem_cons.mp hr' with rfl | h
      · exact Or.inr (hin r' (List.mem_cons_self _ _))
      · exact ih toks lastLoc hwf (fun x hx => hin x (List.mem_cons_of_mem _ hx)) r' h
    · cases hscan : pgnq_scanTo toks r.location with
      | none =>
        rw [pgnq_resolve_eof_step (not_le.mp hdup) hscan] at hr'
        exact Or.inr (hin r' hr')
      | some pr =>
        obtain ⟨t, ts⟩ := pr
        obtain ⟨⟨pre, hpre⟩, hle⟩ := pgnq_scanTo_eq hscan
        have hwfsuf : pgnq_tokens_wf (t :: ts) = true := by
          rw [hpre] at hwf
          exact pgnq_tokens_wf_append hwf
        have hloc_le : r.location.toNat ≤ t.lloc := Int.toNat_le.mpr hle
        by_cases hm : charAt query r.location.toNat = '-'
        · cases ts with
          | nil =>
            rw [pgnq_resolve_minus_eof_step (not_le.mp hdup) hscan hm] at hr'
            exact Or.inr (hin r' hr')
          | cons t2 ts2 =>
            rw [pgnq_resolve_minus_step (not_le.mp hdup) hscan hm] at hr'
            rcases List.mem_cons.mp hr' with rfl | h
            · left
              have h2ok : pgnq_token_ok t2 = true :=
                pgnq_tokens_wf_head (pgnq_tokens_wf_tail hwfsuf)
              have h12 : t.lloc ≤ t2.lloc := pgnq_tokens_wf_pair hwfsuf
              have hnn : charAt t2.scanbuf r.location.toNat ≠ nullChar :=
                pgnq_token_ok_charAt h2ok (le_trans hloc_le h12)
              have hpos := pgnq_measure_pos hnn
              show (0 : Int) < (pgnq_measure t2.scanbuf r.location.toNat : Int)
              exact_mod_cast hpos
            · exact ih ts2 r.location (pgnq_tokens_wf_tail (pgnq_tokens_wf_tail hwfsuf))
                (fun x hx => hin x (List.mem_cons_of_mem _ hx)) r' h
        · rw [pgnq_resolve_hit_step (not_le.mp hdup) hscan hm] at hr'
          rcases List.mem_cons.mp hr' with rfl | h
          · left
            have htok : pgnq_token_ok t = true := pgnq_tokens_wf_head hwfsuf
            have hnn : charAt t.scanbuf r.location.toNat ≠ nullChar :=
              pgnq_token_ok_charAt htok hloc_le
            have hpos := pgnq_measure_pos hnn
            show (0 : Int) < (pgnq_measure t.scanbuf r.location.toNat : Int)
            exact_mod_cast hpos
          · exact ih ts r.location (pgnq_tokens_wf_tail hwfsuf)
              (fun x hx => hin x (List.mem_cons_of_mem _ hx)) r' h

/-! Step equations for the builder loop. -/

theorem pgnq_loop_skip_step {query : List Char}
    {queryLen queryLoc hpid buflen : Int} {r : pgnqLocationLen}
    {rest : List pgnqLocationLen} {i : Nat}
    {querLoc lastOff lastTokLen : Int} {acc : List Char}
    (h : r.length < 0) :
    pgnq_loop query queryLen queryLoc hpid buflen (r :: rest) i
        querLoc lastOff lastTokLen acc
      = pgnq_loop query queryLen queryLoc hpid buflen rest (i + 1)
          querLoc lastOff lastTokLen acc := by
  rw [pgnq_loop, if_pos h]

theorem pgnq_loop_nil_index (query : List Char)
    (queryLen queryLoc hpid buflen : Int) (i i' : Nat)
    (querLoc lastOff lastTokLen lastOff' lastTokLen' : Int) (acc : List Char) :
    pgnq_loop query queryLen queryLoc hpid buflen [] i
        querLoc lastOff lastTokLen acc
      = pgnq_loop query queryLen queryLoc hpid buflen [] i'
          querLoc lastOff' lastTokLen' acc := rfl

theorem pgnq_loop_append_skipped {query : List Char}
    {queryLen queryLoc hpid buflen : Int} (pre : List pgnqLocationLen)
    {tail : List pgnqLocationLen}
    (h : ∀ r ∈ tail, r.length < 0) :
    ∀ (i : Nat) (querLoc lastOff lastTokLen : Int) (acc : List Char),
    pgnq_loop query queryLen queryLoc hpid buflen (pre ++ tail) i
        querLoc lastOff lastTokLen acc
      = pgnq_loop query queryLen queryLoc hpid buflen pre i
          querLoc lastOff lastTokLen acc := by
  induction pre with
  | nil =>
    intro i querLoc lastOff lastTokLen acc
    rw [List.nil_append]
    induction tail generalizing i with
    | nil => rfl
    | cons r ts ih2 =>
      rw [pgnq_loop_skip_step (h r (List.mem_cons_self _ _))]
      rw [ih2 (fun x hx => h x (List.mem_cons_of_mem _ hx)) (i + 1)]
      exact pgnq_loop_nil_index query queryLen queryLoc hpid buflen (i + 1) i
        querLoc lastOff lastTokLen lastOff lastTokLen acc
  | cons r pre' ih =>
    intro i querLoc lastOff lastTokLen acc
    rw [List.cons_append]
    by_cases h0 : r.length < 0
    · rw [pgnq_loop_skip_step h0, pgnq_loop_skip_step h0]
      exact ih _ _ _ _ _
    · rw [pgnq_loop, if_neg h0]
      conv_rhs => rw [pgnq_loop, if_neg h0]
      by_cases ha : r.location - queryLoc - lastOff - lastTokLen < 0
      · rw [if_pos ha, if_pos ha]
      · rw [if_neg ha, if_neg ha]
        exact ih _ _ _ _ _

/-! Length bounds for the decimal rendering of the parameter number. -/

theorem natDecimalAux_length :
    ∀ (fuel n k : Nat), n < fuel → n < 10 ^ k → 1 ≤ k →
    (natDecimalAux fuel n).length ≤ k := by
  intro fuel
  induction fuel with
  | zero => intro n k h _ _; omega
  | succ f ih =>
    intro n k hf hk hk1
    rw [natDecimalAux]
    by_cases h10 : n < 10
    · rw [if_pos h10]
      simpa using hk1
    · rw [if_neg h10]
      have hn10 : 10 ≤ n := Nat.le_of_not_lt h10
      have hk2 : 2 ≤ k := by
        rcases Nat.lt_or_ge k 2 with h2 | h2
        · exfalso
          have hke : k = 1 := by omega
          rw [hke, pow_one] at hk
          omega
        · exact h2
      have hdiv : n / 10 < f := by
        have h1 : n / 10 < n := Nat.div_lt_self (by omega) (by omega)
        omega
      have hpow : n / 10 < 10 ^ (k - 1) := by
        apply (Nat.div_lt_iff_lt_mul (by omega : 0 < 10)).mpr
        calc n < 10 ^ k := hk
          _ = 10 ^ (k - 1) * 10 := by
            rw [← pow_succ]
            congr 1
            omega
      have hrec := ih (n / 10) (k - 1) hdiv hpow (by omega)
      rw [List.length_append]
      simp only [List.length_cons, List.length_nil]
      omega

theorem natDecimal_length {n k : Nat} (hk : n < 10 ^ k) (h1 : 1 ≤ k) :
    (natDecimal n).length ≤ k :=
  natDecimalAux_length (n + 1) n k (Nat.lt_succ_self n) hk h1

theorem intDecimal_length_le {n : Int} (h0 : 0 ≤ n) (h : n ≤ 9999999999) :
    (intDecimal n).length ≤ 10 := by
  rw [intDecimal, if_neg (not_lt.mpr h0)]
  refine natDecimal_length ?_ (by norm_num)
  have h1 : n.toNat ≤ 9999999999 := Int.toNat_le.mpr h
  have h2 : (10 : Nat) ^ 10 = 10000000000 := by norm_num
  omega

/-! The central refinement lemma for the builder loop: on a well-formed
length-resolved state whose placeholder numbers stay within 32-bit int
range (record count + hpid at most INT_MAX = 2147483647, so the C's int
computation of i + 1 + hpid cannot overflow and coincides with the Int
model), the loop succeeds (both assertions hold), produces exactly the
specification-side output numbered by array index, and never writes more
than query_len + 10 bytes per record. -/

theorem pgnq_loop_spec (query : List Char) (queryLen queryLoc hpid buflen : Int)
    (hhp : 0 ≤ hpid) :
    ∀ (recs : List pgnqLocationLen) (i : Nat) (querLoc lastOff lastTokLen : Int)
      (acc : List Char),
    querLoc = lastOff + lastTokLen →
    (acc.length : Int) ≤ querLoc + 10 * i →
    pgnq_recs_wf queryLoc queryLen querLoc recs = true →
    (i : Int) + recs.length + hpid ≤ 2147483647 →
    queryLen + 10 * ((i : Int) + recs.length) ≤ buflen →
    pgnq_loop query queryLen queryLoc hpid buflen recs i querLoc lastOff lastTokLen acc
      = some (acc ++ pgnq_spec_build_by_index query queryLen queryLoc hpid recs i querLoc)
    ∧ ((acc ++ pgnq_spec_build_by_index query queryLen queryLoc hpid recs i querLoc).length : Int)
        ≤ queryLen + 10 * ((i : Int) + recs.length) := by
  intro recs
  induction recs with
  | nil =>
    intro i querLoc lastOff lastTokLen acc hq hacc hwf hnum hbuf
    have hle : querLoc ≤ queryLen := by
      rw [pgnq_recs_wf] at hwf
      exact of_decide_eq_true hwf
    have hspec : pgnq_spec_build_by_index query queryLen queryLoc hpid [] i querLoc
        = (query.drop querLoc.toNat).take (queryLen - querLoc).toNat := rfl
    rw [hspec]
    have hsub : ¬ (queryLen - querLoc < 0) := not_lt.mpr (sub_nonneg.mpr hle)
    have htk : (((query.drop querLoc.toNat).take (queryLen - querLoc).toNat).length : Int)
        ≤ queryLen - querLoc := by
      have h1 : ((query.drop querLoc.toNat).take (queryLen - querLoc).toNat).length
          ≤ (queryLen - querLoc).toNat := by
        rw [List.length_take]
        exact Nat.min_le_left _ _
      calc (((query.drop querLoc.toNat).take (queryLen - querLoc).toNat).length : Int)
          ≤ ((queryLen - querLoc).toNat : Int) := by exact_mod_cast h1
        _ = queryLen - querLoc := Int.toNat_of_nonneg (sub_nonneg.mpr hle)
    have hlen : ((acc ++ (query.drop querLoc.toNat).take (queryLen - querLoc).toNat).length : Int)
        ≤ queryLen + 10 * ((i : Int) + ([] : List pgnqLocationLen).length) := by
      rw [List.length_append]
      push_cast
      simp only [List.length_nil, Nat.cast_zero, add_zero]
      linarith
    refine ⟨?_, hlen⟩
    have hfin : ((acc ++ (query.drop querLoc.toNat).take (queryLen - querLoc).toNat).length : Int)
        ≤ buflen := le_trans hlen hbuf
    rw [pgnq_loop, if_neg hsub, if_pos hfin]
  | cons r rest ih =>
    intro i querLoc lastOff lastTokLen acc hq hacc hwf hnum hbuf
    have hlc : ((r :: rest).length : Int) = (rest.length : Int) + 1 := by
      simp [List.length_cons]
    by_cases h0 : r.length < 0
    · have hwf' : pgnq_recs_wf queryLoc queryLen querLoc rest = true := by
        rw [pgnq_recs_wf, if_pos h0] at hwf
        exact hwf
      have hspec : pgnq_spec_build_by_index query queryLen queryLoc hpid (r :: rest) i querLoc
          = pgnq_spec_build_by_index query queryLen queryLoc hpid rest (i + 1) querLoc := by
        rw [pgnq_spec_build_by_index, if_pos h0]
      rw [hspec, pgnq_loop_skip_step h0]
      obtain ⟨he, hb⟩ := ih (i + 1) querLoc lastOff lastTokLen acc hq
        (by push_cast; linarith)
        hwf'
        (by push_cast; linarith)
        (by push_cast; linarith)
      refine ⟨he, ?_⟩
      push_cast at hb hlc ⊢
      linarith
    · have hwfe := hwf
      rw [pgnq_recs_wf, if_neg h0, Bool.and_eq_true, Bool.and_eq_true] at hwfe
      obtain ⟨⟨hcur, hlen1⟩, hwf'⟩ := hwfe
      have hcur' : querLoc ≤ r.location - queryLoc := of_decide_eq_true hcur
      have hlen1' : 1 ≤ r.length := of_decide_eq_true hlen1
      have harg : r.location - queryLoc - lastOff - lastTokLen
          = r.location - queryLoc - querLoc := by
        rw [hq]
        ring
      have hass : ¬ (r.location - queryLoc - lastOff - lastTokLen < 0) := by
        rw [harg]
        exact not_lt.mpr (sub_nonneg.mpr hcur')
      have hspec : pgnq_spec_build_by_index query queryLen queryLoc hpid (r :: rest) i querLoc
          = (query.drop querLoc.toNat).take (r.location - queryLoc - querLoc).toNat
            ++ ('$' :: intDecimal ((i : Int) + 1 + hpid))
            ++ pgnq_spec_build_by_index query queryLen queryLoc hpid rest (i + 1)
                 (r.location - queryLoc + r.length) := by
        rw [pgnq_spec_build_by_index, if_neg h0]
      rw [hspec, pgnq_loop, if_neg h0, if_neg hass, harg]
      have hchunklen : (((query.drop querLoc.toNat).take (r.location - queryLoc - querLoc).toNat).length : Int)
          ≤ r.location - queryLoc - querLoc := by
        have h1 : ((query.drop querLoc.toNat).take (r.location - queryLoc - querLoc).toNat).length
            ≤ (r.location - queryLoc - querLoc).toNat := by
          rw [List.length_take]
          exact Nat.min_le_left _ _
        calc (((query.drop querLoc.toNat).take (r.location - queryLoc - querLoc).toNat).length : Int)
            ≤ ((r.location - queryLoc - querLoc).toNat : Int) := by exact_mod_cast h1
          _ = r.location - queryLoc - querLoc := Int.toNat_of_nonneg (sub_nonneg.mpr hcur')
      have hph : ((intDecimal ((i : Int) + 1 + hpid)).length : Int) ≤ 10 := by
        have hge : (0 : Int) ≤ (i : Int) + 1 + hpid := by
          have : (0 : Int) ≤ (i : Int) := Int.natCast_nonneg i
          linarith
        have hub : (i : Int) + 1 + hpid ≤ 9999999999 := by
          have hrl : (0 : Int) ≤ (rest.length : Int) := Int.natCast_nonneg _
          push_cast at hnum hlc
          linarith
        exact_mod_cast intDecimal_length_le hge hub
      obtain ⟨he, hb⟩ := ih (i + 1) (r.location - queryLoc + r.length)
        (r.location - queryLoc) r.length
        (acc ++ (query.drop querLoc.toNat).take (r.location - queryLoc - querLoc).toNat
             ++ ('$' :: intDecimal ((i : Int) + 1 + hpid)))
        (by ring)
        (by
          rw [List.length_append, List.length_append]
          push_cast
          simp only [List.length_cons]
          push_cast
          linarith)
        hwf'
        (by push_cast; linarith)
        (by push_cast; linarith)
      refine ⟨?_, ?_⟩
      · rw [he]
        congr 1
        simp [List.append_assoc]
      · have hgoal := hb
        rw [List.length_append] at hgoal ⊢
        rw [List.length_append, List.length_append] at hgoal
        rw [List.length_append, List.length_append]
        push_cast at hgoal hlc ⊢
        linarith

mutual

theorem treeParamMax_nonneg : ∀ t : Node, 0 ≤ treeParamMax t
  | .aConst _ => le_refl 0
  | .paramRef number => le_max_left 0 number
  | .defElem (some arg) _ => treeParamMax_nonneg arg
  | .defElem none others => listParamMax_nonneg others
  | .rawStmt (some stmt) _ => treeParamMax_nonneg stmt
  | .rawStmt none others => listParamMax_nonneg others
  | .variableSetStmt (some args) _ => treeParamMax_nonneg args
  | .variableSetStmt none others => listParamMax_nonneg others
  | .copyStmt (some q) _ => treeParamMax_nonneg q
  | .copyStmt none others => listParamMax_nonneg others
  | .explainStmt (some q) _ => treeParamMax_nonneg q
  | .explainStmt none others => listParamMax_nonneg others
  | .alterRoleStmt (some opts) _ => treeParamMax_nonneg opts
  | .alterRoleStmt none others => listParamMax_nonneg others
  | .declareCursorStmt (some q) _ => treeParamMax_nonneg q
  | .declareCursorStmt none others => listParamMax_nonneg others
  | .generic fields => listParamMax_nonneg fields

theorem listParamMax_nonneg : ∀ ns : List Node, 0 ≤ listParamMax ns
  | [] => le_refl 0
  | n :: _ => le_trans (treeParamMax_nonneg n) (le_max_left _ _)

end

theorem pgnq_record_highest (jstate : pgnqConstLocations) (location : Int) :
    (pgnq_record_const_location jstate location).highest_extern_param_id
      = jstate.highest_extern_param_id := by
  rw [pgnq_record_const_location]
  split <;> rfl

theorem pgnq_record_clocations (jstate : pgnqConstLocations) (location : Int) :
    (pgnq_record_const_location jstate location).clocations
      = if 0 ≤ location then jstate.clocations ++ [⟨location, -1⟩]
        else jstate.clocations := by
  rw [pgnq_record_const_location]
  split <;> rfl

mutual

theorem pgnq_walker_highest : ∀ (t : Node) (s : pgnqConstLocations),
    0 ≤ s.highest_extern_param_id →
    (pgnq_const_record_walker t s).highest_extern_param_id
      = max s.highest_extern_param_id (treeParamMax t)
  | .aConst loc, s, hs => by
    simp only [pgnq_const_record_walker, treeParamMax, pgnq_record_highest]
    omega
  | .paramRef n, s, hs => by
    simp only [pgnq_const_record_walker, treeParamMax]
    split <;> simp <;> omega
  | .defElem (some arg) _, s, hs => by
    simp only [pgnq_const_record_walker, treeParamMax]
    exact pgnq_walker_highest arg s hs
  | .defElem none others, s, hs => by
    simp only [pgnq_const_record_walker, treeParamMax]
    exact pgnq_walk_fields_highest others s hs
  | .rawStmt (some stmt) _, s, hs => by
    simp only [pgnq_const_record_walker, treeParamMax]
    exact pgnq_walker_highest stmt s hs
  | .rawStmt none others, s, hs => by
    simp only [pgnq_const_record_walker, treeParamMax]
    exact pgnq_walk_fields_highest others s hs
  | .variableSetStmt (some args) _, s, hs => by
    simp only [pgnq_const_record_walker, treeParamMax]
    exact pgnq_walker_highest args s hs
  | .variableSetStmt none others, s, hs => by
    simp only [pgnq_const_record_walker, treeParamMax]
    exact pgnq_walk_fields_highest others s hs
  | .copyStmt (some q) _, s, hs => by
    simp only [pgnq_const_record_walker, treeParamMax]
    exact pgnq_walker_highest q s hs
  | .copyStmt none others, s, hs => by
    simp only [pgnq_const_record_walker, treeParamMax]
    exact pgnq_walk_fields_highest others s hs
  | .explainStmt (some q) _, s, hs => by
    simp only [pgnq_const_record_walker, treeParamMax]
    exact pgnq_walker_highest q s hs
  | .explainStmt none others, s, hs => by
    simp only [pgnq_const_record_walker, treeParamMax]
    exact pgnq_walk_fields_highest others s hs
  | .alterRoleStmt (some opts) _, s, hs => by
    simp only [pgnq_const_record_walker, treeParamMax]
    exact pgnq_walker_highest opts s hs
  | .alterRoleStmt none others, s, hs => by
    simp only [pgnq_const_record_walker, treeParamMax]
    exact pgnq_walk_fields_highest others s hs
  | .declareCursorStmt (some q) _, s, hs => by
    simp only [pgnq_const_record_walker, treeParamMax]
    exact pgnq_walker_highest q s hs
  | .declareCursorStmt none others, s, hs => by
    simp only [pgnq_const_record_walker, treeParamMax]
    exact pgnq_walk_fields_highest others s hs
  | .generic fields, s, hs => by
    simp only [pgnq_const_record_walker, treeParamMax]
    exact pgnq_walk_fields_highest fields s hs

theorem pgnq_walk_fields_highest : ∀ (ns : List Node) (s : pgnqConstLocations),
    0 ≤ s.highest_extern_param_id →
    (pgnq_walk_fields ns s).highest_extern_param_id
      = max s.highest_extern_param_id (listParamMax ns)
  | [], s, hs => by
    simp only [pgnq_walk_fields, listParamMax]
    omega
  | n :: ns, s, hs => by
    simp only [pgnq_walk_fields, listParamMax]
    have h1 := pgnq_walker_highest n s hs
    have hs' : 0 ≤ (pgnq_const_record_walker n s).highest_extern_param_id := by
      rw [h1]
      have := treeParamMax_nonneg n
      omega
    rw [pgnq_walk_fields_highest ns _ hs', h1]
    omega

end

mutual

theorem pgnq_walker_clocations : ∀ (t : Node) (s : pgnqConstLocations),
    (pgnq_const_record_walker t s).clocations
      = s.clocations ++ ((treeConstLocs t).filter (fun l => decide (0 ≤ l))).map
          (fun l => (⟨l, -1⟩ : pgnqLocationLen))
  | .aConst loc, s => by
    simp only [pgnq_const_record_walker, treeConstLocs, pgnq_record_clocations]
    by_cases h : 0 ≤ loc
    · rw [if_pos h]
      simp [List.filter, h]
    · rw [if_neg h]
      simp [List.filter, h]
  | .paramRef n, s => by
    simp only [pgnq_const_record_walker, treeConstLocs]
    split <;> simp
  | .defElem (some arg) _, s => by
    simp only [pgnq_const_record_walker, treeConstLocs]
    exact pgnq_walker_clocations arg s
  | .defElem none others, s => by
    simp only [pgnq_const_record_walker, treeConstLocs]
    exact pgnq_walk_fields_clocations others s
  | .rawStmt (some stmt) _, s => by
    simp only [pgnq_const_record_walker, treeConstLocs]
    exact pgnq_walker_clocations stmt s
  | .rawStmt none others, s => by
    simp only [pgnq_const_record_walker, treeConstLocs]
    exact pgnq_walk_fields_clocations others s
  | .variableSetStmt (some args) _, s => by
    simp only [pgnq_const_record_walker, treeConstLocs]
    exact pgnq_walker_clocations args s
  | .variableSetStmt none others, s => by
    simp only [pgnq_const_record_walker, treeConstLocs]
    exact pgnq_walk_fields_clocations others s
  | .copyStmt (some q) _, s => by
    simp only [pgnq_const_record_walker, treeConstLocs]
    exact pgnq_walker_clocations q s
  | .copyStmt none others, s => by
    simp only [pgnq_const_record_walker, treeConstLocs]
    exact pgnq_walk_fields_clocations others s
  | .explainStmt (some q) _, s => by
    simp only [pgnq_const_record_walker, treeConstLocs]
    exact pgnq_walker_clocations q s
  | .explainStmt none others, s => by
    simp only [pgnq_const_record_walker, treeConstLocs]
    exact pgnq_walk_fields_clocations others s
  | .alterRoleStmt (some opts) _, s => by
    simp only [pgnq_const_record_walker, treeConstLocs]
    exact pgnq_walker_clocations opts s
  | .alterRoleStmt none others, s => by
    simp only [pgnq_const_record_walker, treeConstLocs]
    exact pgnq_walk_fields_clocations others s
  | .declareCursorStmt (some q) _, s => by
    simp only [pgnq_const_record_walker, treeConstLocs]
    exact pgnq_walker_clocations q s
  | .declareCursorStmt none others, s => by
    simp only [pgnq_const_record_walker, treeConstLocs]
    exact pgnq_walk_fields_clocations others s
  | .generic fields, s => by
    simp only [pgnq_const_record_walker, treeConstLocs]
    exact pgnq_walk_fields_clocations fields s

theorem pgnq_walk_fields_clocations : ∀ (ns : List Node) (s : pgnqConstLocations),
    (pgnq_walk_fields ns s).clocations
      = s.clocations ++ ((listConstLocs ns).filter (fun l => decide (0 ≤ l))).map
          (fun l => (⟨l, -1⟩ : pgnqLocationLen))
  | [], s => by
    simp [pgnq_walk_fields, listConstLocs]
  | n :: ns, s => by
    simp only [pgnq_walk_fields, listConstLocs]
    rw [pgnq_walk_fields_clocations ns _, pgnq_walker_clocations n s,
      List.filter_append, List.map_append, List.append_assoc]

end

/-- Claim C9: at a matched token, when the text at the record's location
is a Unicode-escaped quoted literal (length greater than 4, starting
with u or U, then an ampersand, then a quote), the resolver's stored
length is the raw strlen with all trailing whitespace removed; for every
other token the stored length is exactly the byte distance from the
location to the token's NUL terminator, unmodified. -/
theorem pgnq_c9_theorem : ∀ (scanbuf : List Char) (loc : Nat),
    pgnq_measure scanbuf loc =
      if 4 < pgnq_strlen (scanbuf.drop loc) &&
         (charAt scanbuf loc == 'u' || charAt scanbuf loc == 'U') &&
         charAt scanbuf (loc + 1) == '&' &&
         charAt scanbuf (loc + 2) == Char.ofNat 39 then
        (dropTrailingSpaces
          ((scanbuf.drop loc).take (pgnq_strlen (scanbuf.drop loc)))).length
      else pgnq_strlen (scanbuf.drop loc) := by
  intro scanbuf loc
  rw [pgnq_measure]
  by_cases hg : (4 < pgnq_strlen (scanbuf.drop loc) &&
      (charAt scanbuf loc == 'u' || charAt scanbuf loc == 'U') &&
      charAt scanbuf (loc + 1) == '&' &&
      charAt scanbuf (loc + 2) == Char.ofNat 39) = true
  · rw [if_pos hg, if_pos hg,
      pgnq_trim_eq scanbuf loc _ (pgnq_strlen_le (scanbuf.drop loc)),
      dropTrailingSpaces, List.length_reverse]
  · rw [if_neg hg, if_neg hg]

/-- Claim C10: for each of the seven pass-through wrapper node kinds,
when the designated inner field is null the locator does not skip the
node but falls back to generic structural recursion over all of its
child fields, exactly as for a non-wrapper node; when the field is
non-null it recurses into that field alone. -/
theorem pgnq_c10_theorem : ∀ (s : pgnqConstLocations) (inner : Node)
    (others : List Node),
    (pgnq_const_record_walker (.defElem none others) s
       = pgnq_const_record_walker (.generic others) s)
  ∧ (pgnq_const_record_walker (.defElem (some inner) others) s
       = pgnq_const_record_walker inner s)
  ∧ (pgnq_const_record_walker (.rawStmt none others) s
       = pgnq_const_record_walker (.generic others) s)
  ∧ (pgnq_const_record_walker (.rawStmt (some inner) others) s
       = pgnq_const_record_walker inner s)
  ∧ (pgnq_const_record_walker (.variableSetStmt none others) s
       = pgnq_const_record_walker (.generic others) s)
  ∧ (pgnq_const_record_walker (.variableSetStmt (some inner) others) s
       = pgnq_const_record_walker inner s)
  ∧ (pgnq_const_record_walker (.copyStmt none others) s
       = pgnq_const_record_walker (.generic others) s)
  ∧ (pgnq_const_record_walker (.copyStmt (some inner) others) s
       = pgnq_const_record_walker inner s)
  ∧ (pgnq_const_record_walker (.explainStmt none others) s
       = pgnq_const_record_walker (.generic others) s)
  ∧ (pgnq_const_record_walker (.explainStmt (some inner) others) s
       = pgnq_const_record_walker inner s)
  ∧ (pgnq_const_record_walker (.alterRoleStmt none others) s
       = pgnq_const_record_walker (.generic others) s)
  ∧ (pgnq_const_record_walker (.alterRoleStmt (some inner) others) s
       = pgnq_const_record_walker inner s)
  ∧ (pgnq_const_record_walker (.declareCursorStmt none others) s
       = pgnq_const_record_walker (.generic others) s)
  ∧ (pgnq_const_record_walker (.declareCursorStmt (some inner) others) s
       = pgnq_const_record_walker inner s) := by
  intro s inner others
  refine ⟨?_, ?_, ?_, ?_, ?_, ?_, ?_, ?_, ?_, ?_, ?_, ?_, ?_, ?_⟩ <;>
    simp [pgnq_const_record_walker]

theorem pgnq_record_foldl : ∀ (locs : List Int) (init : pgnqConstLocations),
    (locs.foldl pgnq_record_const_location init).clocations
      = init.clocations ++ (locs.filter (fun l => decide (0 ≤ l))).map
          (fun l => (⟨l, -1⟩ : pgnqLocationLen)) := by
  intro locs
  induction locs with
  | nil => intro init; simp
  | cons l ls ih =>
    intro init
    rw [List.foldl_cons, ih, pgnq_record_clocations]
    by_cases h : 0 ≤ l
    · rw [if_pos h]
      simp [List.filter_cons, h, List.append_assoc]
    · rw [if_neg h]
      simp [List.filter_cons, h]

/-- Claim C7: an insertion stores a location if and only if it is
non-negative (a negative location leaves the state unchanged and the
count the same), the stored record's length is initialized to -1, the
capacity is exactly doubled precisely when the count has reached it, and
a whole sequence of insertions stores exactly the non-negative locations
in order, each with length -1, preserving all previously stored
records. -/
theorem pgnq_c7_theorem : ∀ (jstate : pgnqConstLocations) (location : Int)
    (init : pgnqConstLocations) (locs : List Int),
    ((pgnq_record_const_location jstate location).clocations
       = if 0 ≤ location then jstate.clocations ++ [⟨location, -1⟩]
         else jstate.clocations)
  ∧ ((pgnq_record_const_location jstate location).clocations_buf_size
       = if 0 ≤ location ∧ jstate.clocations_buf_size ≤ (jstate.clocations.length : Int)
         then jstate.clocations_buf_size * 2
         else jstate.clocations_buf_size)
  ∧ ((locs.foldl pgnq_record_const_location init).clocations
       = init.clocations ++ (locs.filter (fun l => decide (0 ≤ l))).map
           (fun l => (⟨l, -1⟩ : pgnqLocationLen))) := by
  intro jstate location init locs
  refine ⟨pgnq_record_clocations jstate location, ?_, pgnq_record_foldl locs init⟩
  rw [pgnq_record_const_location]
  split_ifs <;> first | rfl | tauto

/-- Claim C8: the highest-parameter counter starts at 0 in the workspace
set up by the entry point and, after the locator pass, equals the
maximum numbered parameter placeholder encountered in the tree (0 when
there is none); parameter nodes are never recorded as constant
locations — the recorded locations are exactly the non-negative
constant-node locations. -/
theorem pgnq_c8_theorem :
    pgnq_init.highest_extern_param_id = 0
  ∧ (∀ t : Node, (pgnq_const_record_walker t pgnq_init).highest_extern_param_id
       = treeParamMax t)
  ∧ (∀ (t : Node) (s : pgnqConstLocations),
       (pgnq_const_record_walker t s).clocations
         = s.clocations ++ ((treeConstLocs t).filter (fun l => decide (0 ≤ l))).map
             (fun l => (⟨l, -1⟩ : pgnqLocationLen))) := by
  refine ⟨rfl, ?_, pgnq_walker_clocations⟩
  intro t
  have h := pgnq_walker_highest t pgnq_init (le_refl 0)
  rw [h]
  have h0 := treeParamMax_nonneg t
  have hinit : pgnq_init.highest_extern_param_id = 0 := rfl
  rw [hinit]
  omega

/-- Claim C2: after the constant length resolver runs on a state whose
records were initialized with length -1 (as the locator stores them) and
a well-formed token stream, every record's length is either strictly
positive or exactly -1 — never 0 or any other value. -/
theorem pgnq_c2_theorem :
    ∀ (jstate : pgnqConstLocations) (query : List Char) (toks : List pgnqToken),
    pgnq_tokens_wf toks = true →
    (∀ r ∈ jstate.clocations, r.length = -1) →
    ∀ r' ∈ (pgnq_fill_in_constant_lengths jstate query toks).clocations,
      0 < r'.length ∨ r'.length = -1 := by
  intro jstate query toks hwf hin r' hr'
  have hfc : (pgnq_fill_in_constant_lengths jstate query toks).clocations
      = pgnq_resolve
          (if 1 < jstate.clocations.length then pgnq_sort_clocations jstate.clocations
           else jstate.clocations) query toks (-1) := rfl
  rw [hfc] at hr'
  refine pgnq_resolve_lengths _ query toks (-1) hwf ?_ r' hr'
  intro x hx
  by_cases hl : 1 < jstate.clocations.length
  · rw [if_pos hl] at hx
    exact hin x (pgnq_mem_sort_clocations hx)
  · rw [if_neg hl] at hx
    exact hin x hx

/-- Claim C2 witness at a concrete state and token stream. -/
theorem pgnq_c2_witness :
    0 < ((pgnq_fill_in_constant_lengths ⟨[⟨0, -1⟩], 32, 0⟩ ("1".toList)
          [⟨0, "1".toList ++ [nullChar]⟩]).clocations.getD 0 ⟨0, 0⟩).length
  ∨ ((pgnq_fill_in_constant_lengths ⟨[⟨0, -1⟩], 32, 0⟩ ("1".toList)
          [⟨0, "1".toList ++ [nullChar]⟩]).clocations.getD 0 ⟨0, 0⟩).length = -1 :=
  pgnq_c2_theorem ⟨[⟨0, -1⟩], 32, 0⟩ ("1".toList) [⟨0, "1".toList ++ [nullChar]⟩]
    (by decide) (by decide) _ (by decide)

/-- Claim C3: a record whose location is at or before the last resolved
location is a duplicate — the resolver leaves it unchanged (length -1)
and consumes no scanner tokens; the builder skips any record with
negative length, so a duplicated source position yields exactly one
placeholder, as the concrete duplicate-location run shows. -/
theorem pgnq_c3_theorem :
    (∀ (r : pgnqLocationLen) (rest : List pgnqLocationLen) (query : List Char)
       (toks : List pgnqToken) (lastLoc : Int), r.location ≤ lastLoc →
       pgnq_resolve (r :: rest) query toks lastLoc
         = r :: pgnq_resolve rest query toks lastLoc)
  ∧ (∀ (query : List Char) (queryLen queryLoc hpid buflen : Int)
       (r : pgnqLocationLen) (rest : List pgnqLocationLen) (i : Nat)
       (querLoc lastOff lastTokLen : Int) (acc : List Char), r.length < 0 →
       pgnq_loop query queryLen queryLoc hpid buflen (r :: rest) i
           querLoc lastOff lastTokLen acc
         = pgnq_loop query queryLen queryLoc hpid buflen rest (i + 1)
             querLoc lastOff lastTokLen acc)
  ∧ pgnq_build_normalized_query ⟨[⟨4, -1⟩, ⟨4, -1⟩], 32, 0⟩ ("a = 1".toList) 0 5
      [⟨4, "a = 1".toList ++ [nullChar]⟩] = some ("a = $1".toList)
  ∧ ("a = $1".toList).count '$' = 1 := by
  refine ⟨?_, ?_, by decide, by decide⟩
  · intro r rest query toks lastLoc h
    exact pgnq_resolve_dup_step h
  · intro query queryLen queryLoc hpid buflen r rest i querLoc lastOff lastTokLen acc h
    exact pgnq_loop_skip_step h

/-- Claim C3 witness: the duplicate step equation at a concrete record. -/
theorem pgnq_c3_witness :
    pgnq_resolve [⟨3, -1⟩] ("x".toList) [] 5
      = ⟨3, -1⟩ :: pgnq_resolve [] ("x".toList) [] 5 :=
  pgnq_c3_theorem.1 ⟨3, -1⟩ [] ("x".toList) [] 5 (by decide)

/-- Claim C4: at a matched token whose query byte at the record's
location is a minus sign, the resolver consumes exactly one additional
token and measures the span from the minus sign; if that extra pull hits
end of input it stops, leaving the records unchanged; consequently the
concrete bare and negated literals normalize to the same string. -/
theorem pgnq_c4_theorem :
    (∀ (r : pgnqLocationLen) (rest : List pgnqLocationLen) (query : List Char)
       (toks : List pgnqToken) (lastLoc : Int) (t t2 : pgnqToken)
       (ts2 : List pgnqToken),
       lastLoc < r.location →
       pgnq_scanTo toks r.location = some (t, t2 :: ts2) →
       charAt query r.location.toNat = '-' →
       pgnq_resolve (r :: rest) query toks lastLoc
         = { r with length := (pgnq_measure t2.scanbuf r.location.toNat : Int) } ::
             pgnq_resolve rest query ts2 r.location)
  ∧ (∀ (r : pgnqLocationLen) (rest : List pgnqLocationLen) (query : List Char)
       (toks : List pgnqToken) (lastLoc : Int) (t : pgnqToken),
       lastLoc < r.location →
       pgnq_scanTo toks r.location = some (t, []) →
       charAt query r.location.toNat = '-' →
       pgnq_resolve (r :: rest) query toks lastLoc = r :: rest)
  ∧ pgnq_build_normalized_query ⟨[⟨4, -1⟩], 32, 0⟩ ("a = 1".toList) 0 5
      [⟨0, 'a' :: nullChar :: "= 1".toList⟩,
       ⟨2, "a =".toList ++ nullChar :: "1".toList⟩,
       ⟨4, "a = 1".toList ++ [nullChar]⟩]
      = some ("a = $1".toList)
  ∧ pgnq_build_normalized_query ⟨[⟨4, -1⟩], 32, 0⟩ ("a = -1".toList) 0 6
      [⟨0, 'a' :: nullChar :: "= -1".toList⟩,
       ⟨2, "a =".toList ++ nullChar :: "-1".toList⟩,
       ⟨4, "a = -".toList ++ nullChar :: "1".toList⟩,
       ⟨5, "a = -1".toList ++ [nullChar]⟩]
      = some ("a = $1".toList) := by
  refine ⟨?_, ?_, by decide, by decide⟩
  · intro r rest query toks lastLoc t t2 ts2 h1 h2 h3
    exact pgnq_resolve_minus_step h1 h2 h3
  · intro r rest query toks lastLoc t h1 h2 h3
    exact pgnq_resolve_minus_eof_step h1 h2 h3

/-- Claim C4 witness: the minus-merge step at a concrete record. -/
theorem pgnq_c4_witness :
    pgnq_resolve [⟨0, -1⟩] ("-1".toList)
        [⟨0, '-' :: nullChar :: []⟩, ⟨1, "-1".toList ++ [nullChar]⟩] (-1)
      = { location := (0 : Int), length :=
            (pgnq_measure ("-1".toList ++ [nullChar]) ((0 : Int)).toNat : Int) } ::
          pgnq_resolve [] ("-1".toList) [] 0 :=
  pgnq_c4_theorem.1 ⟨0, -1⟩ [] ("-1".toList)
    [⟨0, '-' :: nullChar :: []⟩, ⟨1, "-1".toList ++ [nullChar]⟩] (-1)
    ⟨0, '-' :: nullChar :: []⟩ ⟨1, "-1".toList ++ [nullChar]⟩ []
    (by decide) (by decide) (by decide)

/-- Claim C5: when the scanner reaches end of input before a record's
target offset, the resolver stops entirely, leaving that record and all
later ones unchanged (length -1); the builder skips any all-negative
tail, and the whole call still succeeds, substituting the earlier
resolved constants and leaving the unresolved constant text intact, as
the concrete truncated-scanner run shows. -/
theorem pgnq_c5_theorem :
    (∀ (r : pgnqLocationLen) (rest : List pgnqLocationLen) (query : List Char)
       (toks : List pgnqToken) (lastLoc : Int),
       lastLoc < r.location →
       pgnq_scanTo toks r.location = none →
       pgnq_resolve (r :: rest) query toks lastLoc = r :: rest)
  ∧ (∀ (query : List Char) (queryLen queryLoc hpid buflen : Int)
       (pre tail : List pgnqLocationLen) (i : Nat)
       (querLoc lastOff lastTokLen : Int) (acc : List Char),
       (∀ r ∈ tail, r.length < 0) →
       pgnq_loop query queryLen queryLoc hpid buflen (pre ++ tail) i
           querLoc lastOff lastTokLen acc
         = pgnq_loop query queryLen queryLoc hpid buflen pre i
             querLoc lastOff lastTokLen acc)
  ∧ pgnq_build_normalized_query ⟨[⟨4, -1⟩, ⟨8, -1⟩], 32, 0⟩ ("a = 1 , 2".toList) 0 9
      [⟨4, "a = 1".toList ++ nullChar :: " , 2".toList⟩]
      = some ("a = $1 , 2".toList) := by
  refine ⟨?_, ?_, by decide⟩
  · intro r rest query toks lastLoc h1 h2
    exact pgnq_resolve_eof_step h1 h2
  · intro query queryLen queryLoc hpid buflen pre tail i querLoc lastOff lastTokLen acc h
    exact pgnq_loop_append_skipped pre h i querLoc lastOff lastTokLen acc

/-- Claim C5 witness: scanner exhaustion at a concrete record leaves the
remaining records untouched. -/
theorem pgnq_c5_witness :
    pgnq_resolve [⟨2, -1⟩, ⟨7, -1⟩] ("ab".toList) [] 0 = [⟨2, -1⟩, ⟨7, -1⟩] :=
  pgnq_c5_theorem.1 ⟨2, -1⟩ [⟨7, -1⟩] ("ab".toList) [] 0 (by decide) (by decide)

/-- Claim C1 counterexample: with a skipped duplicate record between two
emitted ones, the code's builder numbers placeholders by the record's
array index and emits a dollar-1 then a dollar-3 (a gap), while the
claim's contiguous emitted-index numbering predicts dollar-1 then
dollar-2; the two outputs differ. -/
theorem pgnq_c1_counterexample :
    pgnq_build_normalized_query ⟨[⟨5, -1⟩, ⟨5, -1⟩, ⟨10, -1⟩], 32, 0⟩
        ("abcde1fghi2jk".toList) 0 13
        [⟨5, "abcde1".toList ++ nullChar :: "hi2jk".toList⟩,
         ⟨10, "abcde1fghi2".toList ++ nullChar :: "k".toList⟩]
      = some ("abcde$1fghi$3jk".toList)
  ∧ pgnq_spec_build_contiguous ("abcde1fghi2jk".toList) 13 0 0
        ((pgnq_fill_in_constant_lengths ⟨[⟨5, -1⟩, ⟨5, -1⟩, ⟨10, -1⟩], 32, 0⟩
          ("abcde1fghi2jk".toList)
          [⟨5, "abcde1".toList ++ nullChar :: "hi2jk".toList⟩,
           ⟨10, "abcde1fghi2".toList ++ nullChar :: "k".toList⟩]).clocations) 0 0
      = ("abcde$1fghi$2jk".toList)
  ∧ ("abcde$1fghi$3jk".toList) ≠ ("abcde$1fghi$2jk".toList) :=
  ⟨by decide, by decide, by decide⟩

/-- Claim C1 as amended: the placeholder emitted for each substituted
constant is a dollar sign followed by (the record's index in the sorted
records array + 1 + highest_param_id); the index advances over skipped
records too, so gaps appear between emitted placeholders when duplicate
or unresolved records lie between them; a statement whose highest
pre-existing parameter is 3 with one constant still substitutes
dollar-4.  This holds whenever record count + highest_param_id is at
most INT_MAX = 2147483647, so the C's 32-bit computation of the
placeholder number cannot overflow.  Formally the builder refines the
by-array-index specification builder. -/
theorem pgnq_c1_theorem :
    ∀ (jstate : pgnqConstLocations) (query : List Char) (queryLoc queryLen : Int)
      (toks : List pgnqToken),
    pgnq_recs_wf queryLoc queryLen 0
        ((pgnq_fill_in_constant_lengths jstate query toks).clocations) = true →
    0 ≤ jstate.highest_extern_param_id →
    (jstate.clocations.length : Int) + jstate.highest_extern_param_id ≤ 2147483647 →
    pgnq_build_normalized_query jstate query queryLoc queryLen toks
      = some (pgnq_spec_build_by_index query queryLen queryLoc
          jstate.highest_extern_param_id
          ((pgnq_fill_in_constant_lengths jstate query toks).clocations) 0 0) := by
  intro jstate query queryLoc queryLen toks hwf hhp hnum
  have hcount : (((pgnq_fill_in_constant_lengths jstate query toks).clocations.length : Nat) : Int)
      = (jstate.clocations.length : Int) := by
    exact_mod_cast pgnq_fill_length jstate query toks
  obtain ⟨he, hb⟩ := pgnq_loop_spec query queryLen queryLoc
    jstate.highest_extern_param_id
    (queryLen + ((pgnq_fill_in_constant_lengths jstate query toks).clocations.length : Int) * 10)
    hhp
    ((pgnq_fill_in_constant_lengths jstate query toks).clocations)
    0 0 0 0 []
    (by ring)
    (by simp)
    hwf
    (by push_cast; rw [hcount]; simpa using hnum)
    (by push_cast; rw [hcount]; linarith)
  have hbuild : pgnq_build_normalized_query jstate query queryLoc queryLen toks
      = pgnq_loop query queryLen queryLoc jstate.highest_extern_param_id
          (queryLen + ((pgnq_fill_in_constant_lengths jstate query toks).clocations.length : Int) * 10)
          ((pgnq_fill_in_constant_lengths jstate query toks).clocations)
          0 0 0 0 [] := rfl
  rw [hbuild, he, List.nil_append]

/-- Claim C1 witness: a state with highest pre-existing parameter 3 and
one literal constant substitutes dollar-4. -/
theorem pgnq_c1_witness :
    pgnq_build_normalized_query ⟨[⟨4, -1⟩], 32, 3⟩ ("a = 1".toList) 0 5
        [⟨4, "a = 1".toList ++ [nullChar]⟩]
      = some ("a = $4".toList) := by
  rw [pgnq_c1_theorem ⟨[⟨4, -1⟩], 32, 3⟩ ("a = 1".toList) 0 5
    [⟨4, "a = 1".toList ++ [nullChar]⟩] (by decide) (by decide) (by decide)]
  decide

/-- Claim C6: the builder sizes its output buffer as
query_len + 10 * record_count (plus one byte for the terminator) and, on
a well-formed length-resolved state whose placeholder numbers stay
within 32-bit int range (record count + highest_param_id at most
INT_MAX = 2147483647, so the C's int arithmetic cannot overflow), it
succeeds — both assertions hold, so the buffer is never
overrun — with a final output length of at most
query_len + 10 * record_count. -/
theorem pgnq_c6_theorem :
    ∀ (jstate : pgnqConstLocations) (query : List Char) (queryLoc queryLen : Int)
      (toks : List pgnqToken),
    pgnq_recs_wf queryLoc queryLen 0
        ((pgnq_fill_in_constant_lengths jstate query toks).clocations) = true →
    0 ≤ jstate.highest_extern_param_id →
    (jstate.clocations.length : Int) + jstate.highest_extern_param_id ≤ 2147483647 →
    ∃ out, pgnq_build_normalized_query jstate query queryLoc queryLen toks = some out
      ∧ (out.length : Int) ≤ queryLen + 10 * (jstate.clocations.length : Int) := by
  intro jstate query queryLoc queryLen toks hwf hhp hnum
  have hcount : (((pgnq_fill_in_constant_lengths jstate query toks).clocations.length : Nat) : Int)
      = (jstate.clocations.length : Int) := by
    exact_mod_cast pgnq_fill_length jstate query toks
  obtain ⟨he, hb⟩ := pgnq_loop_spec query queryLen queryLoc
    jstate.highest_extern_param_id
    (queryLen + ((pgnq_fill_in_constant_lengths jstate query toks).clocations.length : Int) * 10)
    hhp
    ((pgnq_fill_in_constant_lengths jstate query toks).clocations)
    0 0 0 0 []
    (by ring)
    (by simp)
    hwf
    (by push_cast; rw [hcount]; simpa using hnum)
    (by push_cast; rw [hcount]; linarith)
  have hbuild : pgnq_build_normalized_query jstate query queryLoc queryLen toks
      = pgnq_loop query queryLen queryLoc jstate.highest_extern_param_id
          (queryLen + ((pgnq_fill_in_constant_lengths jstate query toks).clocations.length : Int) * 10)
          ((pgnq_fill_in_constant_lengths jstate query toks).clocations)
          0 0 0 0 [] := rfl
  refine ⟨pgnq_spec_build_by_index query queryLen queryLoc
    jstate.highest_extern_param_id
    ((pgnq_fill_in_constant_lengths jstate query toks).clocations) 0 0, ?_, ?_⟩
  · rw [hbuild, he, List.nil_append]
  · rw [List.nil_append] at hb
    push_cast at hb hcount
    rw [hcount] at hb
    linarith

/-- Claim C6 witness: the builder succeeds on a concrete resolved state. -/
theorem pgnq_c6_witness :
    (pgnq_build_normalized_query ⟨[⟨4, -1⟩], 32, 0⟩ ("a = 1".toList) 0 5
        [⟨4, "a = 1".toList ++ [nullChar]⟩]).isSome = true := by
  obtain ⟨out, heq, -⟩ := pgnq_c6_theorem ⟨[⟨4, -1⟩], 32, 0⟩ ("a = 1".toList) 0 5
    [⟨4, "a = 1".toList ++ [nullChar]⟩] (by decide) (by decide) (by decide)
  rw [heq]
  rfl
